import Mathlib

/-!
Shallow embedding of the minimal dependency-injection framework
(`src/InternalServices.hpp`, `src/dip.hpp`, `src/Examples/RoundRobinExample.cpp`).

Modelling conventions:

* A constructed service-provider object is identified by the value of a
  monotone allocation counter (`fresh`), which plays the role of the
  address returned by `new` / `std::make_shared`.  Two objects are the
  "same instance" exactly when their identifiers coincide.  Each object
  also records the provider class name and the bound constructor
  arguments, both modelled as strings, since those are the observable
  data of an instance in the examples and tests.
* A C++ `Constructor` lambda carrying a `static` (resp.
  `static thread_local`) local variable is modelled as a `Recipe` record
  holding an explicit memo cell (resp. an association list from thread
  identifiers to memoized instances).  Threads are identified by `Nat`.
* The per-interface static registry state (`dependencyInjection`'s
  `dependency` slot and `dependencyAddition`'s `dependency` vector)
  becomes an explicit `DMState` record threaded through the operations.
* C++ exceptions become `Except DIError`.
-/

namespace InternalServices

/-- Observable data of one constructed service-provider object: allocation
identity, provider class name and bound constructor arguments. -/
structure SvcInstance where
  id : Nat
  provider : String
  args : String
deriving DecidableEq

/-- Error taxonomy of the framework: `missing_service_provider` and
`service_provider_already_injected` from `InternalServices.hpp`. -/
inductive DIError where
  | missing_service_provider
  | service_provider_already_injected
deriving DecidableEq

/-- Lifetime enumeration from `InternalServices.hpp`. -/
inductive Lifetime where
  | Transient
  | Singleton
  | ThreadLocal
deriving DecidableEq

/-- Service consumer mode enumeration from `InternalServices.hpp`. -/
inductive ServiceConsumerMode where
  | getInstance
  | getAllInstances
  | both
deriving DecidableEq

/-- A stored constructor recipe: lifetime wrapper, provider class name,
bound constructor arguments, plus the hidden state of the lambda's
`static` locals (process-wide memo cell and per-thread memo table). -/
structure Recipe where
  lifetime : Lifetime
  provider : String
  args : String
  memo : Option SvcInstance
  threadMemo : List (Nat × SvcInstance)
deriving DecidableEq

/-- A recipe as freshly built by the template `inject` overload: no
instance memoized yet. -/
def mkRecipe (lt : Lifetime) (provider args : String) : Recipe :=
  { lifetime := lt, provider := provider, args := args, memo := none, threadMemo := [] }

/-- Lookup of the calling thread's memoized instance (models the
per-thread resolution of a `static thread_local` local variable). -/
def tmLookup (t : Nat) : List (Nat × SvcInstance) → Option SvcInstance
  | [] => none
  | p :: rest => if t = p.1 then some p.2 else tmLookup t rest

/-- Invoke a recipe from thread `tid` with allocation counter `fresh`:
`Transient` constructs anew on every call, `Singleton` memoizes the first
construction process-wide, `ThreadLocal` memoizes per thread.  Returns
the produced instance, the updated recipe state and the updated counter. -/
def runRecipe (tid : Nat) (r : Recipe) (fresh : Nat) : SvcInstance × Recipe × Nat :=
  match r.lifetime with
  | Lifetime.Transient =>
      (⟨fresh, r.provider, r.args⟩, r, fresh + 1)
  | Lifetime.Singleton =>
      match r.memo with
      | some i => (i, r, fresh)
      | none =>
          let i : SvcInstance := ⟨fresh, r.provider, r.args⟩
          (i, { r with memo := some i }, fresh + 1)
  | Lifetime.ThreadLocal =>
      match tmLookup tid r.threadMemo with
      | some i => (i, r, fresh)
      | none =>
          let i : SvcInstance := ⟨fresh, r.provider, r.args⟩
          (i, { r with threadMemo := (tid, i) :: r.threadMemo }, fresh + 1)

/-- Per-interface registry state: the single-binding slot held by
`dependencyInjection`, the ordered collection held by
`dependencyAddition`, and the allocation counter. -/
structure DMState where
  slot : Option Recipe
  coll : List Recipe
  fresh : Nat
deriving DecidableEq

/-- The registry state at process start: both stores empty. -/
def emptyDM : DMState := ⟨none, [], 0⟩

/-- Model of `DependencyManager::dependencyInjection(in, clear)`: clears
the slot when asked, stores `in` if the slot is empty, raises
`service_provider_already_injected` if the slot is occupied, and returns
the stored recipe. -/
def dependencyInjection (inj : Option Recipe) (clear : Bool) (s : DMState) :
    Except DIError (Option Recipe × DMState) :=
  let s1 := if clear then { s with slot := none } else s
  match inj with
  | none => Except.ok (s1.slot, s1)
  | some r =>
      match s1.slot with
      | none =>
          let s2 := { s1 with slot := some r }
          Except.ok (s2.slot, s2)
      | some _ => Except.error DIError.service_provider_already_injected

/-- Model of `DependencyManager::dependencyAddition(in, clear)`: clears
the collection when asked, appends `in` when given, returns the
collection.  Never raises. -/
def dependencyAddition (inj : Option Recipe) (clear : Bool) (s : DMState) :
    List Recipe × DMState :=
  let s1 := if clear then { s with coll := [] } else s
  match inj with
  | none => (s1.coll, s1)
  | some r =>
      let s2 := { s1 with coll := s1.coll ++ [r] }
      (s2.coll, s2)

/-- Model of the factory-taking overload
`DependencyManager::inject(Constructor, ServiceConsumerMode)`.  Mirrors
the source's `if ... else if ...` shape exactly: when the first branch
fires (modes `getInstance` and `both`), the second is never examined. -/
def injectFactory (c : Recipe) (consumerMode : ServiceConsumerMode) (s : DMState) :
    Except DIError DMState :=
  if consumerMode = ServiceConsumerMode.getInstance ∨ consumerMode = ServiceConsumerMode.both then
    match dependencyInjection (some c) false s with
    | Except.ok r => Except.ok r.2
    | Except.error e => Except.error e
  else if consumerMode = ServiceConsumerMode.getAllInstances ∨ consumerMode = ServiceConsumerMode.both then
    Except.ok (dependencyAddition (some c) false s).2
  else
    Except.ok s

/-- Model of the template overload
`DependencyManager::inject<ServiceProvider, lifetime, consumerMode>`:
builds the lifetime-wrapped recipe once and installs it through two
independent `if constexpr` branches, so mode `both` reaches both stores. -/
def injectTemplate (lt : Lifetime) (provider args : String)
    (consumerMode : ServiceConsumerMode) (s : DMState) : Except DIError DMState :=
  let c := mkRecipe lt provider args
  match
    (if consumerMode = ServiceConsumerMode.getInstance ∨ consumerMode = ServiceConsumerMode.both then
      dependencyInjection (some c) false s
    else
      Except.ok (s.slot, s)) with
  | Except.error e => Except.error e
  | Except.ok r =>
      if consumerMode = ServiceConsumerMode.getAllInstances ∨ consumerMode = ServiceConsumerMode.both then
        Except.ok (dependencyAddition (some c) false r.2).2
      else
        Except.ok r.2

/-- Model of `DependencyManager::clearInjectedInstancesForTesting()`:
clears both stores through the two private accessors. -/
def clearInjectedInstancesForTesting (s : DMState) : DMState :=
  let s1 :=
    match dependencyInjection none true s with
    | Except.ok r => r.2
    | Except.error _ => s
  (dependencyAddition none true s1).2

/-- Model of `DependencyManager::getInstance()`: raises
`missing_service_provider` on an empty slot, otherwise invokes the
stored recipe once. -/
def getInstance (tid : Nat) (s : DMState) : Except DIError (SvcInstance × DMState) :=
  match s.slot with
  | none => Except.error DIError.missing_service_provider
  | some r =>
      let x := runRecipe tid r s.fresh
      Except.ok (x.1, { s with slot := some x.2.1, fresh := x.2.2 })

/-- Invoke every recipe of a collection in order, threading the
allocation counter, collecting the produced instances and the updated
recipe states. -/
def runAll (tid : Nat) : List Recipe → Nat → List SvcInstance × List Recipe × Nat
  | [], fresh => ([], [], fresh)
  | r :: rest, fresh =>
      let x := runRecipe tid r fresh
      let y := runAll tid rest x.2.2
      (x.1 :: y.1, x.2.1 :: y.2.1, y.2.2)

/-- Model of `DependencyManager::getAllInstances(allowEmpty)`: raises
`missing_service_provider` on an empty collection unless `allowEmpty`,
otherwise invokes every stored recipe in insertion order. -/
def getAllInstances (allowEmpty : Bool) (tid : Nat) (s : DMState) :
    Except DIError (List SvcInstance × DMState) :=
  if s.coll.length = 0 ∧ allowEmpty = false then
    Except.error DIError.missing_service_provider
  else
    let y := runAll tid s.coll s.fresh
    Except.ok (y.1, { s with coll := y.2.1, fresh := y.2.2 })

/-- Perform `n` consecutive `getInstance` calls from thread `tid`,
recording each outcome in order. -/
def getInstanceN (tid : Nat) : Nat → DMState → List (Except DIError SvcInstance) × DMState
  | 0, s => ([], s)
  | n + 1, s =>
      match getInstance tid s with
      | Except.ok x =>
          let y := getInstanceN tid n x.2
          (Except.ok x.1 :: y.1, y.2)
      | Except.error e =>
          let y := getInstanceN tid n s
          (Except.error e :: y.1, y.2)

/-- Install a sequence of recipes through the factory-taking `inject`
overload in `getAllInstances` consumer mode, stopping at the first
error. -/
def injectManyMulti : List Recipe → DMState → Except DIError DMState
  | [], s => Except.ok s
  | c :: rest, s =>
      match injectFactory c ServiceConsumerMode.getAllInstances s with
      | Except.ok s1 => injectManyMulti rest s1
      | Except.error e => Except.error e

/-- A recipe (including its memoized instances) carries provider name
`p` and constructor arguments `a`; invariant preserved by `runRecipe`. -/
def RecipeFor (p a : String) (r : Recipe) : Prop :=
  r.provider = p ∧ r.args = a ∧
  (match r.memo with
   | none => True
   | some i => i.provider = p ∧ i.args = a) ∧
  ∀ q ∈ r.threadMemo, q.2.provider = p ∧ q.2.args = a

/-- Install a sequence of lifetime bindings through the template
`inject` overload in `getAllInstances` consumer mode, stopping at the
first error. -/
def installBindings : List (Lifetime × String × String) → DMState → Except DIError DMState
  | [], s => Except.ok s
  | b :: rest, s =>
      match injectTemplate b.1 b.2.1 b.2.2 ServiceConsumerMode.getAllInstances s with
      | Except.ok s1 => installBindings rest s1
      | Except.error e => Except.error e

end InternalServices

namespace SingletonServices

/-- State of `SingletonServices::DependencyManager<T>`: the single
static `_instance` member (a possibly-null shared pointer). -/
structure SgState where
  stored : Option InternalServices.SvcInstance
deriving DecidableEq

/-- Model of the template overload
`SingletonServices::DependencyManager::inject<ServiceProvider>(args...)`:
constructs and stores a provider if none is stored, otherwise raises
`service_provider_already_injected`. -/
def sgInject (provider args : String) (fresh : Nat) (s : SgState) :
    Except InternalServices.DIError (SgState × Nat) :=
  match s.stored with
  | none => Except.ok (⟨some ⟨fresh, provider, args⟩⟩, fresh + 1)
  | some _ => Except.error InternalServices.DIError.service_provider_already_injected

/-- Model of `SingletonServices::DependencyManager::inject(Provider)`:
a null argument returns at once; otherwise the instance is stored if the
slot is empty and `service_provider_already_injected` is raised if not. -/
def sgInjectProvider (alreadyCreatedInstance : Option InternalServices.SvcInstance)
    (s : SgState) : Except InternalServices.DIError SgState :=
  match alreadyCreatedInstance with
  | none => Except.ok s
  | some p =>
      match s.stored with
      | none => Except.ok ⟨some p⟩
      | some _ => Except.error InternalServices.DIError.service_provider_already_injected

/-- Model of
`SingletonServices::DependencyManager::clearInjectedInstancesForTesting()`:
sets the stored instance back to null. -/
def sgClear (_ : SgState) : SgState := ⟨none⟩

/-- Model of `SingletonServices::DependencyManager::getInstance()`:
raises `missing_service_provider` when nothing is stored, otherwise
returns the stored instance. -/
def sgGetInstance (s : SgState) : Except InternalServices.DIError InternalServices.SvcInstance :=
  match s.stored with
  | none => Except.error InternalServices.DIError.missing_service_provider
  | some i => Except.ok i

/-- Model of `SingletonServices::DependencyManager::injected()`. -/
def sgInjected (s : SgState) : Bool := s.stored.isSome

end SingletonServices

namespace dip

/-- Model of `dip::Injector<Service>`: a mandatory acquire function and
an optional release function.  Acquisition may read and update an
ambient world state of type `σ` (the state of pools, counters or
allocators captured by the user's callables); references have type
`Ref`. -/
structure Injector (σ : Type) (Ref : Type) where
  acquire : σ → Ref × σ
  release : Option (Ref → σ → σ)

/-- Model of the `dip::instance<Service>` constructor: call the injected
acquire function once and hold the returned reference. -/
def instanceCtor {σ Ref : Type} (inj : Injector σ Ref) (w : σ) : Ref × σ :=
  inj.acquire w

/-- Model of the `dip::instance<Service>` destructor: call the paired
release function on the held reference when one is present, otherwise do
nothing. -/
def instanceDtor {σ Ref : Type} (inj : Injector σ Ref) (r : Ref) (w : σ) : σ :=
  match inj.release with
  | some f => f r w
  | none => w

/-- Model of the `dip::instance_set<Service>` constructor: call every
installed injector's acquire in installation order, collecting the
returned references. -/
def instanceSetCtor {σ Ref : Type} : List (Injector σ Ref) → σ → List Ref × σ
  | [], w => ([], w)
  | inj :: rest, w =>
      let x := inj.acquire w
      let y := instanceSetCtor rest x.2
      (x.1 :: y.1, y.2)

/-- Model of the `dip::instance_set<Service>` destructor: walk the
injector list in order and, for each injector that has a release
function, apply it to the reference acquired at the same position. -/
def instanceSetDtor {σ Ref : Type} : List (Injector σ Ref) → List Ref → σ → σ
  | [], _, w => w
  | _ :: _, [], w => w
  | inj :: rest, r :: rs, w =>
      instanceSetDtor rest rs (instanceDtor inj r w)

/-- Observable event of the custom-injector path: a given binding's
acquire ran (recording its tag), or a release ran (recording the
released reference). -/
inductive DipEvent where
  | acq (tag : Nat)
  | rel (ref : Nat)
deriving DecidableEq

/-- A test injector whose acquire returns its own tag and logs the call,
and whose optional release logs the released reference; used to observe
the call discipline of the consumer handles. -/
def taggedInjector (tag : Nat) (hasRelease : Bool) : Injector (List DipEvent) Nat :=
  { acquire := fun w => (tag, w ++ [DipEvent.acq tag]),
    release := if hasRelease then some (fun r w => w ++ [DipEvent.rel r]) else none }

/-- Model of the acquire function installed by
`dip::instance_set::add_transient<Provider>(args...)`.  The source body
is `static thread_local Provider p(args...); return &p;`, i.e. a
per-thread memoized cell, which this function reproduces. -/
def add_transient_acquire (provider args : String) (tid : Nat)
    (cell : List (Nat × InternalServices.SvcInstance)) (fresh : Nat) :
    InternalServices.SvcInstance × List (Nat × InternalServices.SvcInstance) × Nat :=
  match InternalServices.tmLookup tid cell with
  | some i => (i, cell, fresh)
  | none =>
      let i : InternalServices.SvcInstance := ⟨fresh, provider, args⟩
      (i, (tid, i) :: cell, fresh + 1)

/-- Model of the acquire function installed by
`dip::instance::inject_transient<Provider>(args...)`:
`return new Provider(args...);`, a fresh construction on every call. -/
def inject_transient_acquire (provider args : String) (fresh : Nat) :
    InternalServices.SvcInstance × Nat :=
  (⟨fresh, provider, args⟩, fresh + 1)

end dip

namespace RoundRobinExample

/-- Model of `RoundRobin::acquire()` from
`src/Examples/RoundRobinExample.cpp`: return the provider at the cursor,
advance the cursor, and wrap it to zero once it reaches the pool size.
Out-of-range access (impossible while the cursor stays below the pool
size) falls back to `dflt`. -/
def rrAcquire {α : Type} (providers : List α) (dflt : α) (round : Nat) : α × Nat :=
  (providers.getD round dflt,
   if round + 1 ≥ providers.length then 0 else round + 1)

/-- Perform `n` consecutive `RoundRobin::acquire()` calls starting from
cursor `round`, collecting the returned providers in order. -/
def rrRun {α : Type} (providers : List α) (dflt : α) : Nat → Nat → List α × Nat
  | 0, round => ([], round)
  | n + 1, round =>
      let x := rrAcquire providers dflt round
      let y := rrRun providers dflt n x.2
      (x.1 :: y.1, y.2)

end RoundRobinExample

open InternalServices SingletonServices dip RoundRobinExample

theorem injectManyMulti_ok (cs : List Recipe) (s : DMState) :
    injectManyMulti cs s = Except.ok { s with coll := s.coll ++ cs } := by
  induction cs generalizing s with
  | nil => simp [injectManyMulti]
  | cons c rest ih =>
      simp [injectManyMulti, injectFactory, dependencyAddition, ih, List.append_assoc]

theorem installBindings_ok (bs : List (Lifetime × String × String)) (s : DMState) :
    installBindings bs s =
      Except.ok { s with coll := s.coll ++ bs.map fun b => mkRecipe b.1 b.2.1 b.2.2 } := by
  induction bs generalizing s with
  | nil => simp [installBindings]
  | cons b rest ih =>
      simp [installBindings, injectTemplate, dependencyAddition, ih, List.append_assoc]

theorem runRecipe_mk (lt : Lifetime) (p a : String) (tid fresh : Nat) :
    (runRecipe tid (mkRecipe lt p a) fresh).1 = ⟨fresh, p, a⟩ ∧
    (runRecipe tid (mkRecipe lt p a) fresh).2.2 = fresh + 1 := by
  cases lt <;> exact ⟨rfl, rfl⟩

theorem runAll_mk (bs : List (Lifetime × String × String)) (tid : Nat) :
    ∀ fresh,
      (runAll tid (bs.map fun b => mkRecipe b.1 b.2.1 b.2.2) fresh).1.map
          (fun i => (i.provider, i.args)) =
        bs.map fun b => (b.2.1, b.2.2) := by
  induction bs with
  | nil => intro fresh; rfl
  | cons b rest ih =>
      intro fresh
      have h := runRecipe_mk b.1 b.2.1 b.2.2 tid fresh
      simp only [List.map_cons, runAll, h.1, h.2, List.map]
      exact congrArg _ (ih (fresh + 1))

/-- C1: the factory-taking `inject` overload with consumer mode `both`
installs the recipe only into the single-binding slot; the collection
stays empty, so a subsequent `getAllInstances()` fails.  This refutes
the claim that mode `both` installs the recipe into both stores. -/
theorem C1_both_mode_factory_installs_slot_only (c : Recipe) :
    injectFactory c ServiceConsumerMode.both emptyDM = Except.ok ⟨some c, [], 0⟩ ∧
    getAllInstances false 0 ⟨some c, [], 0⟩ =
      Except.error DIError.missing_service_provider ∧
    injectTemplate c.lifetime c.provider c.args ServiceConsumerMode.both emptyDM =
      Except.ok ⟨some (mkRecipe c.lifetime c.provider c.args),
        [mkRecipe c.lifetime c.provider c.args], 0⟩ := by
  exact ⟨rfl, rfl, rfl⟩

/-- C2: the acquire function installed by `instance_set::add_transient`
returns the identical instance on two consecutive acquisitions from the
same thread (it is a per-thread memoized cell), whereas the
single-consumer `instance::inject_transient` acquire yields two
observably distinct instances.  This refutes the claim that the set-mode
transient path constructs a fresh instance on every acquisition. -/
theorem C2_add_transient_not_fresh :
    (add_transient_acquire "P" "a" 0
        (add_transient_acquire "P" "a" 0 [] 0).2.1
        (add_transient_acquire "P" "a" 0 [] 0).2.2).1 =
      (add_transient_acquire "P" "a" 0 [] 0).1 ∧
    (inject_transient_acquire "P" "a" 0).1.id ≠
      (inject_transient_acquire "P" "a" (inject_transient_acquire "P" "a" 0).2).1.id := by
  exact ⟨rfl, by decide⟩

/-- C10: injecting a null already-created provider instance into the
singleton-only registry is a silent no-op: no error is raised, the state
is returned unchanged, and `injected()` reports the same value as before
the call. -/
theorem C10_null_provider_injection_noop (s : SgState) :
    sgInjectProvider none s = Except.ok s ∧
    (sgInjectProvider none s).map sgInjected = Except.ok (sgInjected s) := by
  exact ⟨rfl, rfl⟩

/-- C5: with zero stored bindings, `getInstance` raises
`missing_service_provider`, `getAllInstances(false)` raises it as well,
`getAllInstances(true)` returns the empty sequence without error, and
the singleton-variant `getInstance` raises it too. -/
theorem C5_unbound_interface_errors (s : DMState) (tid : Nat) (sg : SgState)
    (h1 : s.slot = none) (h2 : s.coll = []) (h3 : sg.stored = none) :
    getInstance tid s = Except.error DIError.missing_service_provider ∧
    getAllInstances false tid s = Except.error DIError.missing_service_provider ∧
    getAllInstances true tid s = Except.ok ([], s) ∧
    sgGetInstance sg = Except.error DIError.missing_service_provider := by
  obtain ⟨slot, coll, fresh⟩ := s
  obtain ⟨st⟩ := sg
  simp only at h1 h2 h3
  subst h1; subst h2; subst h3
  exact ⟨rfl, rfl, rfl, rfl⟩

theorem C5_unbound_interface_errors_witness :
    (emptyDM.slot = none ∧ emptyDM.coll = [] ∧ (⟨none⟩ : SgState).stored = none) ∧
    (getInstance 0 emptyDM = Except.error DIError.missing_service_provider ∧
      getAllInstances false 0 emptyDM = Except.error DIError.missing_service_provider ∧
      getAllInstances true 0 emptyDM = Except.ok ([], emptyDM) ∧
      sgGetInstance ⟨none⟩ = Except.error DIError.missing_service_provider) :=
  ⟨⟨rfl, rfl, rfl⟩, C5_unbound_interface_errors emptyDM 0 ⟨none⟩ rfl rfl rfl⟩

/-- C4: attempting a second single-mode binding while one is stored
raises `service_provider_already_injected` (through either `inject`
overload), while any number of multi-mode additions succeeds and simply
appends to the collection. -/
theorem C4_duplicate_single_never_multi (c : Recipe) (lt : Lifetime) (p a : String)
    (cs : List Recipe) (s : DMState) (h : s.slot.isSome = true) :
    injectFactory c ServiceConsumerMode.getInstance s =
      Except.error DIError.service_provider_already_injected ∧
    injectTemplate lt p a ServiceConsumerMode.getInstance s =
      Except.error DIError.service_provider_already_injected ∧
    ∃ s2, injectManyMulti cs s = Except.ok s2 ∧ s2.coll = s.coll ++ cs := by
  obtain ⟨r, hr⟩ := Option.isSome_iff_exists.mp h
  refine ⟨?_, ?_, ⟨_, injectManyMulti_ok cs s, rfl⟩⟩
  · simp [injectFactory, dependencyInjection, hr]
  · simp [injectTemplate, dependencyInjection, hr]

theorem C4_duplicate_single_never_multi_witness :
    ((⟨some (mkRecipe Lifetime.Transient "Old" ""), [], 0⟩ : DMState).slot.isSome = true) ∧
    (injectFactory (mkRecipe Lifetime.Transient "P" "a") ServiceConsumerMode.getInstance
        ⟨some (mkRecipe Lifetime.Transient "Old" ""), [], 0⟩ =
      Except.error DIError.service_provider_already_injected ∧
    injectTemplate Lifetime.Singleton "Q" "b" ServiceConsumerMode.getInstance
        ⟨some (mkRecipe Lifetime.Transient "Old" ""), [], 0⟩ =
      Except.error DIError.service_provider_already_injected ∧
    ∃ s2, injectManyMulti [mkRecipe Lifetime.Transient "P" "a"]
        ⟨some (mkRecipe Lifetime.Transient "Old" ""), [], 0⟩ = Except.ok s2 ∧
      s2.coll = [] ++ [mkRecipe Lifetime.Transient "P" "a"]) :=
  ⟨rfl, C4_duplicate_single_never_multi (mkRecipe Lifetime.Transient "P" "a")
    Lifetime.Singleton "Q" "b" [mkRecipe Lifetime.Transient "P" "a"]
    ⟨some (mkRecipe Lifetime.Transient "Old" ""), [], 0⟩ rfl⟩

/-- C3: installing a sequence of N multi-mode bindings and then calling
`getAllInstances(false)` succeeds and returns exactly N instances, whose
provider names and constructor arguments appear in exactly the order the
bindings were installed. -/
theorem C3_resolveAll_preserves_install_order
    (bs : List (Lifetime × String × String)) (tid : Nat) (hbs : bs ≠ []) :
    ∃ s1 out s2,
      installBindings bs emptyDM = Except.ok s1 ∧
      getAllInstances false tid s1 = Except.ok (out, s2) ∧
      out.length = bs.length ∧
      out.map (fun i => (i.provider, i.args)) = bs.map fun b => (b.2.1, b.2.2) := by
  have hs1 : installBindings bs emptyDM =
      Except.ok ⟨none, bs.map fun b => mkRecipe b.1 b.2.1 b.2.2, 0⟩ := by
    simpa [emptyDM] using installBindings_ok bs emptyDM
  have hmap := runAll_mk bs tid 0
  have hcond : ¬((bs.map fun b => mkRecipe b.1 b.2.1 b.2.2).length = 0 ∧ false = false) := by
    intro hc
    exact hbs (List.length_eq_zero.mp (by simpa using hc.1))
  have hget : getAllInstances false tid ⟨none, bs.map fun b => mkRecipe b.1 b.2.1 b.2.2, 0⟩ =
      Except.ok ((runAll tid (bs.map fun b => mkRecipe b.1 b.2.1 b.2.2) 0).1,
        ⟨none, (runAll tid (bs.map fun b => mkRecipe b.1 b.2.1 b.2.2) 0).2.1,
          (runAll tid (bs.map fun b => mkRecipe b.1 b.2.1 b.2.2) 0).2.2⟩) := by
    rw [getAllInstances, if_neg hcond]
  refine ⟨_, _, _, hs1, hget, ?_, hmap⟩
  have hlen := congrArg List.length hmap
  simpa using hlen

theorem C3_resolveAll_preserves_install_order_witness :
    ([(Lifetime.Transient, "P", "a"), (Lifetime.Singleton, "Q", "b")] ≠
        ([] : List (Lifetime × String × String))) ∧
    (∃ s1 out s2,
      installBindings [(Lifetime.Transient, "P", "a"), (Lifetime.Singleton, "Q", "b")]
          emptyDM = Except.ok s1 ∧
      getAllInstances false 0 s1 = Except.ok (out, s2) ∧
      out.length = [(Lifetime.Transient, "P", "a"), (Lifetime.Singleton, "Q", "b")].length ∧
      out.map (fun i => (i.provider, i.args)) =
        [(Lifetime.Transient, "P", "a"),
          (Lifetime.Singleton, "Q", "b")].map fun b => (b.2.1, b.2.2)) :=
  ⟨by decide, C3_resolveAll_preserves_install_order
    [(Lifetime.Transient, "P", "a"), (Lifetime.Singleton, "Q", "b")] 0 (by decide)⟩

/-- C6: once a `Singleton` (process-shared) binding has allocated its
instance, every later `getInstance` call, from any thread, returns the
same instance and leaves the registry state (including the allocation
counter) untouched; a `ThreadLocal` binding behaves the same way for
repeated calls from the allocating thread; the singleton-variant
registry likewise keeps returning the stored instance. -/
theorem C6_shared_lifetimes_memoize (p a : String) (tid : Nat) (s : DMState)
    (hs : s.slot = none) :
    (∃ s1 i s2,
      injectTemplate Lifetime.Singleton p a ServiceConsumerMode.getInstance s =
        Except.ok s1 ∧
      getInstance tid s1 = Except.ok (i, s2) ∧
      ∀ t, getInstance t s2 = Except.ok (i, s2)) ∧
    (∃ s1 j s2,
      injectTemplate Lifetime.ThreadLocal p a ServiceConsumerMode.getInstance s =
        Except.ok s1 ∧
      getInstance tid s1 = Except.ok (j, s2) ∧
      getInstance tid s2 = Except.ok (j, s2)) ∧
    (∀ (sg : SgState) (i : SvcInstance), sg.stored = some i →
      sgGetInstance sg = Except.ok i) := by
  obtain ⟨slot, coll, fresh⟩ := s
  simp only at hs
  subst hs
  refine ⟨⟨_, _, _, rfl, rfl, fun t => rfl⟩, ⟨_, _, _, rfl, rfl, ?_⟩, ?_⟩
  · simp [getInstance, runRecipe, tmLookup, mkRecipe]
  · intro sg i h
    simp [sgGetInstance, h]

theorem C6_shared_lifetimes_memoize_witness :
    (emptyDM.slot = none) ∧
    ((∃ s1 i s2,
      injectTemplate Lifetime.Singleton "P" "a" ServiceConsumerMode.getInstance emptyDM =
        Except.ok s1 ∧
      getInstance 0 s1 = Except.ok (i, s2) ∧
      ∀ t, getInstance t s2 = Except.ok (i, s2)) ∧
    (∃ s1 j s2,
      injectTemplate Lifetime.ThreadLocal "P" "a" ServiceConsumerMode.getInstance emptyDM =
        Except.ok s1 ∧
      getInstance 0 s1 = Except.ok (j, s2) ∧
      getInstance 0 s2 = Except.ok (j, s2)) ∧
    (∀ (sg : SgState) (i : SvcInstance), sg.stored = some i →
      sgGetInstance sg = Except.ok i)) :=
  ⟨rfl, C6_shared_lifetimes_memoize "P" "a" 0 emptyDM rfl⟩

theorem taggedInjector_acquire (t : Nat) (b : Bool) (w : List DipEvent) :
    (taggedInjector t b).acquire w = (t, w ++ [DipEvent.acq t]) := rfl

theorem instanceDtor_tagged_true (t r : Nat) (w : List DipEvent) :
    instanceDtor (taggedInjector t true) r w = w ++ [DipEvent.rel r] := rfl

theorem instanceDtor_tagged_false (t r : Nat) (w : List DipEvent) :
    instanceDtor (taggedInjector t false) r w = w := rfl

theorem setCtor_tagged (specs : List (Nat × Bool)) (w : List DipEvent) :
    instanceSetCtor (specs.map fun q => taggedInjector q.1 q.2) w =
      (specs.map Prod.fst, w ++ specs.map fun q => DipEvent.acq q.1) := by
  induction specs generalizing w with
  | nil => simp [instanceSetCtor]
  | cons q rest ih =>
      simp [instanceSetCtor, taggedInjector_acquire, ih, List.append_assoc]

theorem setDtor_tagged (specs : List (Nat × Bool)) (w : List DipEvent) :
    instanceSetDtor (specs.map fun q => taggedInjector q.1 q.2) (specs.map Prod.fst) w =
      w ++ ((specs.filter fun q => q.2).map fun q => DipEvent.rel q.1) := by
  induction specs generalizing w with
  | nil => simp [instanceSetDtor]
  | cons q rest ih =>
      obtain ⟨t, b⟩ := q
      cases b <;>
        simp [instanceSetDtor, instanceDtor_tagged_true, instanceDtor_tagged_false,
          ih, List.append_assoc]

/-- C7: with one logging injector per binding, the set handle's
construction calls every binding's acquire exactly once in binding order
and holds the references in that order; its destruction applies exactly
the release functions that exist, each to the reference its own binding
produced, again in binding order, and bindings without a release never
appear in the teardown log.  The single-instance handle calls acquire
once at construction and at destruction calls release on the held
reference only when a release is present. -/
theorem C7_handles_call_discipline (specs : List (Nat × Bool)) :
    (instanceSetCtor (specs.map fun q => taggedInjector q.1 q.2) []).1 =
      specs.map Prod.fst ∧
    (instanceSetCtor (specs.map fun q => taggedInjector q.1 q.2) []).2 =
      (specs.map fun q => DipEvent.acq q.1) ∧
    instanceSetDtor (specs.map fun q => taggedInjector q.1 q.2) (specs.map Prod.fst)
        (specs.map fun q => DipEvent.acq q.1) =
      (specs.map fun q => DipEvent.acq q.1) ++
        ((specs.filter fun q => q.2).map fun q => DipEvent.rel q.1) ∧
    (∀ t (w : List DipEvent),
      instanceCtor (taggedInjector t true) w = (t, w ++ [DipEvent.acq t])) ∧
    (∀ t r (w : List DipEvent), instanceDtor (taggedInjector t false) r w = w) ∧
    (∀ t r (w : List DipEvent),
      instanceDtor (taggedInjector t true) r w = w ++ [DipEvent.rel r]) := by
  refine ⟨?_, ?_, setDtor_tagged specs _, fun t w => rfl, fun t r w => rfl, fun t r w => rfl⟩
  · rw [setCtor_tagged]
  · rw [setCtor_tagged]
    exact List.nil_append _

theorem tmLookup_mem (t : Nat) (l : List (Nat × SvcInstance)) (i : SvcInstance)
    (h : tmLookup t l = some i) : ∃ t2, (t2, i) ∈ l := by
  induction l with
  | nil => exact absurd h (by simp [tmLookup])
  | cons q rest ih =>
      by_cases hq : t = q.1
      · simp only [tmLookup, if_pos hq] at h
        have hi : q.2 = i := Option.some.inj h
        subst hi
        exact ⟨q.1, List.mem_cons_self _ _⟩
      · simp only [tmLookup, if_neg hq] at h
        obtain ⟨t2, hm⟩ := ih h
        exact ⟨t2, List.mem_cons_of_mem _ hm⟩

theorem RecipeFor_mk (lt : Lifetime) (p a : String) : RecipeFor p a (mkRecipe lt p a) := by
  refine ⟨rfl, rfl, trivial, ?_⟩
  simp [mkRecipe]

theorem runRecipe_for (p a : String) (r : Recipe) (tid fresh : Nat)
    (h : RecipeFor p a r) :
    (runRecipe tid r fresh).1.provider = p ∧ (runRecipe tid r fresh).1.args = a ∧
    RecipeFor p a (runRecipe tid r fresh).2.1 := by
  obtain ⟨lt, rp, ra, rm, rt⟩ := r
  obtain ⟨hp, ha, hm, ht⟩ := h
  simp only at hp ha hm ht
  cases lt with
  | Transient => exact ⟨hp, ha, hp, ha, hm, ht⟩
  | Singleton =>
      cases rm with
      | some i =>
          exact ⟨hm.1, hm.2, hp, ha, hm, ht⟩
      | none =>
          exact ⟨hp, ha, hp, ha, ⟨hp, ha⟩, ht⟩
  | ThreadLocal =>
      cases hl : tmLookup tid rt with
      | some i =>
          obtain ⟨t2, hmem⟩ := tmLookup_mem tid rt i hl
          have hi := ht (t2, i) hmem
          simp only [runRecipe, hl]
          exact ⟨hi.1, hi.2, hp, ha, hm, ht⟩
      | none =>
          simp only [runRecipe, hl]
          refine ⟨hp, ha, hp, ha, hm, ?_⟩
          intro q hq
          rcases List.mem_cons.mp hq with hq | hq
          · rw [hq]
            exact ⟨hp, ha⟩
          · exact ht q hq

theorem getInstanceN_for (p a : String) (tid : Nat) :
    ∀ (n : Nat) (s : DMState) (r : Recipe), s.slot = some r → RecipeFor p a r →
      ∀ res ∈ (getInstanceN tid n s).1,
        ∃ i, res = Except.ok i ∧ i.provider = p ∧ i.args = a := by
  intro n
  induction n with
  | zero => intro s r hs hr res hres; exact absurd hres (by simp [getInstanceN])
  | succ n ih =>
      intro s r hs hr res hres
      have hrun := runRecipe_for p a r tid s.fresh hr
      have hget : getInstance tid s = Except.ok ((runRecipe tid r s.fresh).1,
          { s with slot := some (runRecipe tid r s.fresh).2.1,
                   fresh := (runRecipe tid r s.fresh).2.2 }) := by
        rw [getInstance, hs]
      rw [getInstanceN, hget] at hres
      simp only [List.mem_cons] at hres
      rcases hres with hres | hres
      · exact ⟨(runRecipe tid r s.fresh).1, hres, hrun.1, hrun.2.1⟩
      · exact ih _ (runRecipe tid r s.fresh).2.1 rfl hrun.2.2 res hres

/-- C8: after the test-teardown reset, installing a provider through the
single-mode path succeeds without a duplicate-binding error, and every
subsequent `getInstance` call returns an instance of the newly bound
provider with its bound arguments — never anything else.  The
singleton-variant registry behaves the same after its own reset. -/
theorem C8_reset_then_rebind (s : DMState) (lt : Lifetime) (p a : String)
    (tid n fresh : Nat) (sg : SgState) :
    (∃ s1,
      injectTemplate lt p a ServiceConsumerMode.getInstance
          (clearInjectedInstancesForTesting s) = Except.ok s1 ∧
      ∀ res ∈ (getInstanceN tid n s1).1,
        ∃ i, res = Except.ok i ∧ i.provider = p ∧ i.args = a) ∧
    (∃ t, sgInject p a fresh (sgClear sg) = Except.ok t ∧
      sgGetInstance t.1 = Except.ok ⟨fresh, p, a⟩) := by
  have hclear : clearInjectedInstancesForTesting s = ⟨none, [], s.fresh⟩ := by
    obtain ⟨slot, coll, f⟩ := s
    rfl
  constructor
  · refine ⟨⟨some (mkRecipe lt p a), [], s.fresh⟩, by rw [hclear]; rfl, ?_⟩
    exact getInstanceN_for p a tid n _ (mkRecipe lt p a) rfl (RecipeFor_mk lt p a)
  · exact ⟨_, rfl, rfl⟩

theorem rrRun_add {α : Type} (p : List α) (d : α) (m n : Nat) :
    ∀ c, rrRun p d (m + n) c =
      ((rrRun p d m c).1 ++ (rrRun p d n (rrRun p d m c).2).1,
        (rrRun p d n (rrRun p d m c).2).2) := by
  induction m with
  | zero => intro c; simp [rrRun, Nat.zero_add]
  | succ m ih =>
      intro c
      have hadd : m + 1 + n = (m + n) + 1 := by omega
      rw [hadd]
      simp only [rrRun]
      rw [ih]
      simp

theorem rrRun_one {α : Type} (p : List α) (d : α) (c : Nat) :
    rrRun p d 1 c = ([p.getD c d], if c + 1 ≥ p.length then 0 else c + 1) := rfl

theorem rrRun_cycle {α : Type} (p : List α) (d : α) :
    ∀ (k c : Nat), c + k = p.length → 0 < k → rrRun p d k c = (p.drop c, 0) := by
  intro k
  induction k with
  | zero => intro c hck h0; exact absurd h0 (by omega)
  | succ k ih =>
      intro c hck h0
      have hc : c < p.length := by omega
      have hgetD : p.getD c d = p[c] := List.getD_eq_getElem p d hc
      have hdrop : p.drop c = p[c] :: p.drop (c + 1) := List.drop_eq_getElem_cons hc
      cases k with
      | zero =>
          have hc1 : c + 1 = p.length := by omega
          have hwrap : (if c + 1 ≥ p.length then 0 else c + 1) = 0 := if_pos (by omega)
          have hnil : p.drop (c + 1) = [] := by
            rw [hc1]
            exact List.drop_length p
          show rrRun p d 1 c = (p.drop c, 0)
          rw [rrRun_one, hwrap, hgetD, hdrop, hnil]
      | succ k =>
          have hwrap : (if c + 1 ≥ p.length then 0 else c + 1) = c + 1 := if_neg (by omega)
          have hrest := ih (c + 1) (by omega) (by omega)
          have h1 : rrRun p d 1 c = ([p.getD c d], c + 1) := by
            rw [rrRun_one, hwrap]
          have heq : k + 1 + 1 = 1 + (k + 1) := by omega
          rw [heq, rrRun_add p d 1 (k + 1) c, h1]
          dsimp only
          rw [hrest, hgetD, List.singleton_append, ← hdrop]

theorem rrRun_one_cycle {α : Type} (p : List α) (d : α) (h : 0 < p.length) :
    rrRun p d p.length 0 = (p, 0) := by
  simpa using rrRun_cycle p d p.length 0 (by omega) h

/-- C9: the round-robin injector over a pool of K distinct
pre-constructed providers, starting with cursor 0, returns over 2K
consecutive acquisitions exactly the pool twice over: the i-th call
yields the provider at index i mod K, and each pool member is returned
exactly twice. -/
theorem C9_round_robin_two_cycles {α : Type} [DecidableEq α]
    (pool : List α) (d : α) (hK : 0 < pool.length) (hnd : pool.Nodup) :
    (rrRun pool d (2 * pool.length) 0).1 = pool ++ pool ∧
    (∀ i, i < 2 * pool.length →
      ((rrRun pool d (2 * pool.length) 0).1)[i]? = pool[i % pool.length]?) ∧
    (∀ x ∈ pool, ((rrRun pool d (2 * pool.length) 0).1).count x = 2) := by
  have hfull : (rrRun pool d (2 * pool.length) 0).1 = pool ++ pool := by
    rw [Nat.two_mul, rrRun_add, rrRun_one_cycle pool d hK, rrRun_one_cycle pool d hK]
  refine ⟨hfull, ?_, ?_⟩
  · intro i hi
    rw [hfull, List.getElem?_append]
    by_cases hil : i < pool.length
    · rw [if_pos hil, Nat.mod_eq_of_lt hil]
    · rw [if_neg hil]
      have hmod : i % pool.length = i - pool.length := by
        rw [Nat.mod_eq_sub_mod (by omega), Nat.mod_eq_of_lt (by omega)]
      rw [hmod]
  · intro x hx
    rw [hfull, List.count_append, List.count_eq_one_of_mem hnd hx]

theorem C9_round_robin_two_cycles_witness :
    (0 < [10, 20, 30].length ∧ ([10, 20, 30] : List Nat).Nodup) ∧
    ((rrRun [10, 20, 30] 0 (2 * [10, 20, 30].length) 0).1 = [10, 20, 30] ++ [10, 20, 30] ∧
    (∀ i, i < 2 * [10, 20, 30].length →
      ((rrRun [10, 20, 30] 0 (2 * [10, 20, 30].length) 0).1)[i]? =
        ([10, 20, 30] : List Nat)[i % [10, 20, 30].length]?) ∧
    (∀ x ∈ ([10, 20, 30] : List Nat),
      ((rrRun [10, 20, 30] 0 (2 * [10, 20, 30].length) 0).1).count x = 2)) :=
  ⟨⟨by decide, by decide⟩,
    C9_round_robin_two_cycles [10, 20, 30] 0 (by decide) (by decide)⟩


